import Mathlib

set_option autoImplicit false

/-!
Verification of the pISO drive-lifecycle state machine, menu/focus model and
render compositor, shallowly embedded from `src/pISO.old/src/piso.cpp`.
External collaborators (the lvm backend report, shell command outputs, the
text rasterizer) are inputs; parts of the repository that are declared but
not present under `src/` (VirtualDrive, Bitmap) are modelled from the spec
and marked as such.
-/

namespace Piso

/-- Drive format enum, from `DriveFormat` (declared in piso.hpp). -/
inductive DriveFormat
  | WINDOWS
  | LINUX
  | MAC
  | UNIVERSAL
  deriving DecidableEq, Repr

/-- Mount state of a drive, from the spec's data model (§3):
unmounted, mounted-internal, mounted-external. -/
inductive MountState
  | unmounted
  | mountedInternal
  | mountedExternal
  deriving DecidableEq, Repr

/-- Modelled from the spec: `VirtualDrive` (virtualdrive.hpp/.cpp are not under
`src/`). A drive owns its identity (`name`, also the backing volume name), its
mount state, and an implicit focus flag mutated only through
`on_focus`/`on_lose_focus` (spec §3). -/
structure VirtualDrive where
  name : String
  mountState : MountState
  focused : Bool
  deriving DecidableEq, Repr

/-- Modelled from the spec: drive equality used by `std::find` in
`pISO::remove_drive` is name-equality (spec §4.1 Remove step 1: "Look up the
drive by name-equality"). -/
def VirtualDrive.beqName (a b : VirtualDrive) : Bool := a.name == b.name

/-- One record of the backend's volume report (`lvm_lvs_report`), an external
collaborator (spec §6): `{name, attrs, size, data_percent}`. The parsed
percentage is modelled as a rational. -/
structure LvmVolume where
  lv_name : String
  lv_attr : String
  data_percent : ℚ
  lv_size : Nat
  deriving DecidableEq

/-- Backend/shell commands issued by the core, in order (used to observe the
"backend call count" of spec P3 and the partition/format commands of §4.1). -/
inductive Cmd
  | lvcreate (size : Nat) (name : String)
  | parted (name : String) (fsHint : String)
  | vdriveMountInternal (name : String)
  | mkfs (fs : String) (partition : String)
  | lvremove (name : String)
  deriving DecidableEq, Repr

/-- Focus events observed during a list rebuild, indexed by the item's
position in the new sequence. -/
inductive FocusEvent
  | loseFocus (index : Nat)
  | focus (index : Nat)
  deriving DecidableEq, Repr

/-- An entry of `m_list_items`. In the source these are pointers to the drive
objects and to the two singleton actions; here the drive entry carries the
drive's state as of the rebuild that produced the list. -/
inductive ItemKind
  | drive (d : VirtualDrive)
  | newdrive
  | options
  deriving DecidableEq, Repr

/-- The in-memory `pISO` object: `m_drives`, the focus flags of the two
singleton actions (`m_newdrive`, `m_options`), `m_list_items` and the
selection cursor `m_selection` (modelled as an index; reset to `0` on every
rebuild). -/
structure pISO where
  drives : List VirtualDrive
  newdriveFocused : Bool
  optionsFocused : Bool
  listItems : List ItemKind
  selection : Nat
  deriving DecidableEq, Repr

/-- The `pISO` object together with the observable external world: the
backend's volume set, the mount registry (modelled from the spec, see
`mountStateOf`), the trace of backend/shell commands issued, and the log. -/
structure World where
  piso : pISO
  volumes : List LvmVolume
  mounts : List (String × MountState)
  cmds : List Cmd
  log : List String
  deriving DecidableEq

/-- The focus flags of the current item sequence, in item order: each drive's
flag, then the new-drive action's, then the options action's. -/
def itemFlags (p : pISO) : List Bool :=
  p.drives.map (fun d => d.focused) ++ [p.newdriveFocused, p.optionsFocused]

/-- `pISO::update_list_items` (piso.cpp:65-82): clear `m_list_items`, push
every drive, then `m_newdrive`, then `m_options`; invoke `on_lose_focus` on
every item; reset `m_selection` to the first element; if a selection exists,
invoke `on_focus` on it. Focus flags live in the pointed-to objects, so the
rebuilt list reflects the final flags. Returns the new state and the focus
events, in order. -/
def update_list_items (p : pISO) : pISO × List FocusEvent :=
  let cleared := p.drives.map (fun d => { d with focused := false })
  let next :=
    match cleared with
    | [] => (([] : List VirtualDrive), true, false)
    | d :: rest => ({ d with focused := true } :: rest, false, false)
  let items := next.1.map ItemKind.drive ++ [ItemKind.newdrive, ItemKind.options]
  let events := (List.range items.length).map FocusEvent.loseFocus ++ [FocusEvent.focus 0]
  ({ p with drives := next.1, newdriveFocused := next.2.1, optionsFocused := next.2.2,
            listItems := items, selection := 0 }, events)

/-- Modelled from the spec: the mount state a reconstructed drive reports for a
backend volume. Per §3, drives are freshly built from the backend's report
(VirtualDrive's constructor is not under `src/`); per P2 and the glossary, a
volume exposed as USB mass-storage backing is mounted-external, so
reconstruction consults the externally observable mount registry (newest
entry first). -/
def mountStateOf (mounts : List (String × MountState)) (name : String) : MountState :=
  match mounts.find? (fun m => m.1 == name) with
  | some m => m.2
  | none => MountState.unmounted

/-- `pISO::rebuild_drives_from_volumes` (piso.cpp:84-98): clear `m_drives`,
query the backend report, and for every volume whose `lv_attr` starts with
`'V'` (virtual), push a freshly built drive; then `update_list_items`. -/
def rebuild_drives_from_volumes (w : World) : World × List FocusEvent :=
  let virtuals := w.volumes.filter (fun v => v.lv_attr.front == 'V')
  let drives := virtuals.map (fun v => VirtualDrive.mk v.lv_name (mountStateOf w.mounts v.lv_name) false)
  let pe := update_list_items { w.piso with drives := drives }
  ({ w with piso := pe.1 }, pe.2)

/-- The name generated for a new drive (piso.cpp:103):
`"Drive" + std::to_string(m_drives.size() + 1)`. -/
def genName (p : pISO) : String := "Drive" ++ toString (p.drives.length + 1)

/-- `std::getline(partitions, first_partition, '\n')` on the captured output
of the loopback-mount script: the first line. -/
def firstLine (s : String) : String := (s.splitOn "\n").headD ""

/-- The partition-table filesystem hint passed to `parted` (piso.cpp:109-121):
`ntfs` for MAC/UNIVERSAL/WINDOWS, `ext3` for LINUX. -/
def partedHint : DriveFormat → String
  | DriveFormat.MAC => "ntfs"
  | DriveFormat.UNIVERSAL => "ntfs"
  | DriveFormat.WINDOWS => "ntfs"
  | DriveFormat.LINUX => "ext3"

/-- The filesystem `mkfs` is run with (piso.cpp:133-144): WINDOWS→ntfs,
LINUX→ext3, MAC/UNIVERSAL→exfat. -/
def mkfsType : DriveFormat → String
  | DriveFormat.WINDOWS => "ntfs"
  | DriveFormat.LINUX => "ext3"
  | DriveFormat.MAC => "exfat"
  | DriveFormat.UNIVERSAL => "exfat"

/-- Apply `f` to the last element of a list (`m_drives.back()`). -/
def setLast (f : VirtualDrive → VirtualDrive) : List VirtualDrive → List VirtualDrive
  | [] => []
  | [d] => [f d]
  | d :: rest => d :: setLast f rest

/-- `pISO::add_drive` (piso.cpp:100-150): generate the next sequential name;
`lvcreate` a thin (virtual) volume of `size` bytes; `emplace_back` the drive;
`parted` with the format's partition hint; loopback-mount via `vdrive.sh`
(its captured standard output is the external input `loopbackRes`); `mkfs`
the first discovered partition; `mount_external()` the new drive; rebuild the
list. The created volume appears in the backend report with a virtual
(`V`-initial) attribute string, modelled from the spec (§2 thin-provisioned
logical volumes, §6 virtual-flag filtering). -/
def add_drive (w : World) (size : Nat) (format : DriveFormat) (loopbackRes : String) :
    World × List FocusEvent :=
  let name := genName w.piso
  let w1 := { w with
    log := w.log ++ ["Adding new drive with size=" ++ toString size],
    cmds := w.cmds ++ [Cmd.lvcreate size name],
    volumes := w.volumes ++ [LvmVolume.mk name "Vwi-a-tz--" 0 size],
    piso := { w.piso with drives := w.piso.drives ++ [VirtualDrive.mk name MountState.unmounted false] } }
  let w2 := { w1 with cmds := w1.cmds ++ [Cmd.parted name (partedHint format)] }
  let w3 := { w2 with
    cmds := w2.cmds ++ [Cmd.vdriveMountInternal name],
    mounts := (name, MountState.mountedInternal) :: w2.mounts }
  let firstPartition := firstLine loopbackRes
  let w4 := { w3 with cmds := w3.cmds ++ [Cmd.mkfs (mkfsType format) firstPartition] }
  let w5 := { w4 with
    mounts := (name, MountState.mountedExternal) :: w4.mounts,
    piso := { w4.piso with
      drives := setLast (fun d => { d with mountState := MountState.mountedExternal }) w4.piso.drives } }
  let pe := update_list_items w5.piso
  ({ w5 with piso := pe.1 }, pe.2)

/-- `pISO::remove_drive` (piso.cpp:152-164): look up the drive (name-equality)
in `m_drives`; if absent, log "Warning: drive not found" and return with no
other effect; otherwise `lvremove` the backing volume, erase the entry, and
rebuild the list. -/
def remove_drive (w : World) (drive : VirtualDrive) : World × List FocusEvent :=
  let w0 := { w with log := w.log ++ ["Removing drive " ++ drive.name] }
  match w0.piso.drives.findIdx? (fun d => VirtualDrive.beqName d drive) with
  | none => ({ w0 with log := w0.log ++ ["Warning: drive not found"] }, [])
  | some i =>
    let w1 := { w0 with
      cmds := w0.cmds ++ [Cmd.lvremove drive.name],
      volumes := w0.volumes.eraseP (fun v => v.lv_name == drive.name) }
    let pe := update_list_items { w1.piso with drives := w1.piso.drives.eraseIdx i }
    ({ w1 with piso := pe.1 }, pe.2)

/-- `pISO::percent_used` (piso.cpp:166-176): scan the backend report for the
thin pool's record and return its parsed `data_percent`; `none` models the
fatal `piso_error` when the pool is not found. -/
def percent_used (thinpoolName : String) (lvs : List LvmVolume) : Option ℚ :=
  (lvs.find? (fun v => v.lv_name == thinpoolName)).map (fun v => v.data_percent)

/-- `pISO::size` (piso.cpp:178-182): the thin pool's total byte size from the
filtered backend report (`stoull` of the reported `lv_size`). -/
def poolSize (thinpoolRecord : LvmVolume) : Nat := thinpoolRecord.lv_size

/-- Render mode of a menu item's bitmap, from `GUIRenderable::RenderMode`. -/
inductive RenderMode
  | NORMAL
  | FULLSCREEN
  deriving DecidableEq, Repr

/-- Modelled from the spec: the Bitmap primitive (bitmap.hpp/.cpp are not
under `src/`): a fixed-size raster, consumed through `blit`, `expand_width`,
`expand_height` and `rotate` (spec §2, §6). Pixels outside the stated
dimensions are irrelevant. -/
structure Bitmap where
  width : Nat
  height : Nat
  pix : Nat → Nat → Bool

/-- A zeroed bitmap of the given dimensions (the `Bitmap{w, h}` and default
constructors). -/
def Bitmap.blank (w h : Nat) : Bitmap := Bitmap.mk w h (fun _ _ => false)

/-- Modelled from the spec: `blit(src, offset[, extend])` copies `src` into
the destination at the offset; without `extend` content beyond the
destination's bounds is clipped and the dimensions are unchanged, with
`extend` the destination grows to fit. -/
def Bitmap.blit (dst src : Bitmap) (ox oy : Nat) (extend : Bool) : Bitmap :=
  let w := if extend then max dst.width (ox + src.width) else dst.width
  let h := if extend then max dst.height (oy + src.height) else dst.height
  Bitmap.mk w h (fun x y =>
    if ox ≤ x ∧ x < ox + src.width ∧ oy ≤ y ∧ y < oy + src.height ∧ x < w ∧ y < h
    then src.pix (x - ox) (y - oy)
    else dst.pix x y)

/-- Modelled from the spec: `expand_height` grows the bitmap downward by
blank rows. -/
def Bitmap.expandHeight (b : Bitmap) (dh : Nat) : Bitmap :=
  Bitmap.mk b.width (b.height + dh) (fun x y => if y < b.height then b.pix x y else false)

/-- Modelled from the spec: `expand_width` grows the bitmap rightward by
blank columns. -/
def Bitmap.expandWidth (b : Bitmap) (dw : Nat) : Bitmap :=
  Bitmap.mk (b.width + dw) b.height (fun x y => if x < b.width then b.pix x y else false)

/-- Modelled from the spec: `rotate(Direction::Left)` turns the bitmap a
quarter turn, swapping its dimensions. -/
def Bitmap.rotateLeft (b : Bitmap) : Bitmap :=
  Bitmap.mk b.height b.width (fun x y => b.pix y (b.height - 1 - x))

/-- The item loop of `pISO::render` (piso.cpp:202-218): for each item's
`(sub_bitmap, mode)`, if the mode is FULLSCREEN return it immediately
(`Sum.inl`); otherwise indent the sub-bitmap by the left margin, grow the
canvas (`expand_height`, and `expand_width` when the shifted bitmap is
wider), and blit it below the previous content. `Sum.inr` is the final
canvas. -/
def renderLoop (leftSpace : Nat) :
    List (Bitmap × RenderMode) → Bitmap → (Bitmap × RenderMode) ⊕ Bitmap
  | [], acc => Sum.inr acc
  | driveBitmap :: rest, acc =>
    if driveBitmap.2 = RenderMode.FULLSCREEN then Sum.inl driveBitmap
    else
      let shifted := (Bitmap.blank (driveBitmap.1.width + leftSpace) driveBitmap.1.height).blit
        driveBitmap.1 leftSpace 0 false
      let oldHeight := acc.height
      let acc1 := acc.expandHeight shifted.height
      let acc2 := if acc1.width < shifted.width
        then acc1.expandWidth (shifted.width - acc1.width) else acc1
      renderLoop leftSpace rest (acc2.blit shifted 0 oldHeight true)

/-- `pISO::render` (piso.cpp:199-236). Each item's render output is an input
(item rendering is polymorphic code outside the core); `W × H` are the
physical display's fixed dimensions `Display::width × Display::height`,
`leftSpace`/`sidebarSpace` the `MENU_LEFT_SPACE`/`SIDEBAR_SPACE` constants,
`renderText` the external text rasterizer and `percentUsed` the value
obtained from `percent_used()`. After compositing, the canvas is copied
(clipped) into a display-sized frame, the "% Free" sidebar is built with a
one-pixel border row, rotated left and blitted at the right edge, and the
frame is returned with mode NORMAL. -/
def render (W H leftSpace sidebarSpace : Nat) (renderText : String → Bitmap)
    (percentUsed : Int) (items : List (Bitmap × RenderMode)) : Bitmap × RenderMode :=
  match renderLoop leftSpace items (Bitmap.blank 0 0) with
  | Sum.inl fullscreen => fullscreen
  | Sum.inr bitmap =>
    let out := (Bitmap.blank W H).blit bitmap 0 0 false
    let percentFree : Int := 100 - percentUsed
    let sidebar := renderText (toString percentFree ++ "% Free")
    let bordered := Bitmap.mk sidebar.width (sidebar.height + sidebarSpace) (fun _ y => y == 0)
    let sidebarWithBorder := (bordered.blit sidebar 0 sidebarSpace false).rotateLeft
    let out2 := out.blit sidebarWithBorder (out.width - sidebarWithBorder.width) 0 false
    (out2, RenderMode.NORMAL)

/-! Basic lemmas about `update_list_items`. -/

lemma update_list_items_names (p : pISO) :
    ((update_list_items p).1).drives.map (fun d => d.name) = p.drives.map (fun d => d.name) := by
  cases hd : p.drives with
  | nil => simp [update_list_items, hd]
  | cons d rest => simp [update_list_items, hd]

lemma update_list_items_keys (p : pISO) :
    ((update_list_items p).1).drives.map (fun d => (d.name, d.mountState)) =
      p.drives.map (fun d => (d.name, d.mountState)) := by
  cases hd : p.drives with
  | nil => simp [update_list_items, hd]
  | cons d rest => simp [update_list_items, hd]

lemma update_list_items_selection (p : pISO) : ((update_list_items p).1).selection = 0 := rfl

lemma update_list_items_listItems (p : pISO) :
    ((update_list_items p).1).listItems =
      ((update_list_items p).1).drives.map ItemKind.drive ++
        [ItemKind.newdrive, ItemKind.options] := rfl

lemma update_list_items_length (p : pISO) :
    ((update_list_items p).1).drives.length = p.drives.length := by
  cases hd : p.drives with
  | nil => simp [update_list_items, hd]
  | cons d rest => simp [update_list_items, hd]

lemma cleared_flags_replicate (l : List VirtualDrive) :
    List.map ((fun d => d.focused) ∘ fun d =>
        ({ name := d.name, mountState := d.mountState, focused := false } : VirtualDrive)) l ++
      [false, false] = false :: false :: List.replicate l.length false := by
  induction l with
  | nil => rfl
  | cons r rs ih => exact congrArg (List.cons false) ih

lemma update_list_items_flags (p : pISO) :
    itemFlags (update_list_items p).1 = true :: List.replicate (p.drives.length + 1) false := by
  cases hd : p.drives with
  | nil => simp [update_list_items, itemFlags, hd, List.replicate_succ]
  | cons d rest =>
    simp only [update_list_items, itemFlags, hd, List.map_cons, List.map_map]
    exact congrArg (List.cons true) (cleared_flags_replicate rest)

lemma update_list_items_events (p : pISO) :
    (update_list_items p).2 =
      (List.range (p.drives.length + 2)).map FocusEvent.loseFocus ++ [FocusEvent.focus 0] := by
  cases hd : p.drives with
  | nil => simp [update_list_items, hd]
  | cons d rest => simp [update_list_items, hd]

lemma update_list_items_listItems_length (p : pISO) :
    ((update_list_items p).1).listItems.length = p.drives.length + 2 := by
  rw [update_list_items_listItems]
  simp [update_list_items_length]

/-- C2: after every list rebuild (`update_list_items`), every item in the new
sequence receives `on_lose_focus`, the selection cursor is reset to the first
element, and (the list being non-empty) exactly the first element has focus,
having received `on_focus`: the item focus flags are `true` followed by
`false` for every other item. -/
theorem C2_rebuild_focus_invariant (p : pISO) :
    (update_list_items p).1.selection = 0 ∧
    itemFlags (update_list_items p).1 =
      true :: List.replicate (p.drives.length + 1) false ∧
    (∀ i, i < (update_list_items p).1.listItems.length →
      FocusEvent.loseFocus i ∈ (update_list_items p).2) ∧
    FocusEvent.focus 0 ∈ (update_list_items p).2 := by
  refine ⟨update_list_items_selection p, update_list_items_flags p, ?_, ?_⟩
  · intro i hi
    rw [update_list_items_listItems_length] at hi
    rw [update_list_items_events]
    exact List.mem_append_left _ (List.mem_map.mpr ⟨i, List.mem_range.mpr hi, rfl⟩)
  · rw [update_list_items_events]
    exact List.mem_append_right _ (List.mem_singleton.mpr rfl)

/-- Concrete state used by witnesses: one drive, stale focus flags, a stale
cursor. -/
def witnessP : pISO :=
  pISO.mk [VirtualDrive.mk "Drive1" MountState.unmounted true] false true [] 5

/-- The empty start state: no drives, empty backend, nothing focused. -/
def emptyWorld : World := World.mk (pISO.mk [] false false [] 0) [] [] [] []

/-- C2 witness: the rebuild invariant instantiated at a concrete stale state. -/
theorem C2_rebuild_focus_invariant_witness :
    (update_list_items witnessP).1.selection = 0 ∧
    FocusEvent.loseFocus 2 ∈ (update_list_items witnessP).2 ∧
    FocusEvent.focus 0 ∈ (update_list_items witnessP).2 :=
  ⟨(C2_rebuild_focus_invariant witnessP).1,
   (C2_rebuild_focus_invariant witnessP).2.2.1 2 (by decide),
   (C2_rebuild_focus_invariant witnessP).2.2.2⟩

lemma update_list_items_invariant (p : pISO) :
    ((update_list_items p).1).listItems.length = ((update_list_items p).1).drives.length + 2 ∧
    ((update_list_items p).1).selection < ((update_list_items p).1).listItems.length := by
  have h1 := update_list_items_listItems_length p
  have h2 := update_list_items_length p
  have h3 := update_list_items_selection p
  constructor
  · rw [h1, h2]
  · rw [h3, h1]
    omega

/-- The states the controller can be in: a startup rebuild from any backend
state (the `pISO` constructor calls `rebuild_drives_from_volumes`), closed
under `add_drive`, `remove_drive` and further rebuilds. -/
inductive Reachable : World → Prop
  | init (w : World) : Reachable (rebuild_drives_from_volumes w).1
  | add (w : World) (s : Nat) (f : DriveFormat) (o : String) :
      Reachable w → Reachable (add_drive w s f o).1
  | remove (w : World) (x : VirtualDrive) :
      Reachable w → Reachable (remove_drive w x).1
  | rebuild (w : World) : Reachable w → Reachable (rebuild_drives_from_volumes w).1

/-- C10: after every `update_list_items` the item list is non-empty — it
contains the new-drive action and the options action besides the drives, so
its length is the drive count plus two — a selection exists (the cursor is in
range) and the first element holds focus, having received `on_focus`;
consequently no reachable state has an empty menu or an out-of-range
cursor. -/
theorem C10_menu_never_empty :
    (∀ p : pISO,
      (update_list_items p).1.listItems.length = (update_list_items p).1.drives.length + 2 ∧
      (update_list_items p).1.listItems ≠ [] ∧
      ItemKind.newdrive ∈ (update_list_items p).1.listItems ∧
      ItemKind.options ∈ (update_list_items p).1.listItems ∧
      (update_list_items p).1.selection < (update_list_items p).1.listItems.length ∧
      (itemFlags (update_list_items p).1).head? = some true ∧
      FocusEvent.focus 0 ∈ (update_list_items p).2) ∧
    (∀ w : World, Reachable w →
      w.piso.listItems.length = w.piso.drives.length + 2 ∧
      w.piso.selection < w.piso.listItems.length) := by
  constructor
  · intro p
    refine ⟨?_, ?_, ?_, ?_, ?_, ?_, ?_⟩
    · rw [update_list_items_listItems_length, update_list_items_length]
    · rw [update_list_items_listItems]
      simp
    · rw [update_list_items_listItems]
      exact List.mem_append_right _ (by simp)
    · rw [update_list_items_listItems]
      exact List.mem_append_right _ (by simp)
    · rw [update_list_items_selection, update_list_items_listItems_length]
      omega
    · rw [update_list_items_flags]
      rfl
    · rw [update_list_items_events]
      exact List.mem_append_right _ (List.mem_singleton.mpr rfl)
  · intro w hr
    induction hr with
    | init w0 => exact update_list_items_invariant _
    | add w0 s f o _ _ => exact update_list_items_invariant _
    | remove w0 x _ ih =>
      cases hfi : List.findIdx? (fun d => VirtualDrive.beqName d x) w0.piso.drives with
      | none =>
        have hpiso : (remove_drive w0 x).1.piso = w0.piso := by
          simp [remove_drive, hfi]
        rw [hpiso]
        exact ih
      | some i =>
        have hpiso : (remove_drive w0 x).1.piso =
            (update_list_items
              { w0.piso with drives := w0.piso.drives.eraseIdx i }).1 := by
          simp [remove_drive, hfi]
        rw [hpiso]
        exact update_list_items_invariant _
    | rebuild w0 _ _ => exact update_list_items_invariant _

/-- C10 witness: the invariant at the concrete startup state obtained by
rebuilding from the empty backend, and the per-rebuild facts at a concrete
stale state. -/
theorem C10_menu_never_empty_witness :
    ((rebuild_drives_from_volumes emptyWorld).1.piso.listItems.length =
      (rebuild_drives_from_volumes emptyWorld).1.piso.drives.length + 2 ∧
     (rebuild_drives_from_volumes emptyWorld).1.piso.selection <
      (rebuild_drives_from_volumes emptyWorld).1.piso.listItems.length) ∧
    (update_list_items witnessP).1.listItems ≠ [] :=
  ⟨C10_menu_never_empty.2 (rebuild_drives_from_volumes emptyWorld).1
      (Reachable.init emptyWorld),
   (C10_menu_never_empty.1 witnessP).2.1⟩

/-- C9: after every rebuild the item sequence is exactly each current drive in
order, then the new-drive action, then the options action; and a rebuild
derived from the backend report surfaces exactly the volumes whose attribute
string flags them as virtual (first character `'V'`), in report order. -/
theorem C9_rebuild_sequence (w : World) :
    ((rebuild_drives_from_volumes w).1.piso.listItems =
      (rebuild_drives_from_volumes w).1.piso.drives.map ItemKind.drive ++
        [ItemKind.newdrive, ItemKind.options]) ∧
    ((rebuild_drives_from_volumes w).1.piso.drives.map (fun d => d.name) =
      (w.volumes.filter (fun v => v.lv_attr.front == 'V')).map (fun v => v.lv_name)) ∧
    (∀ p : pISO, (update_list_items p).1.listItems =
      (update_list_items p).1.drives.map ItemKind.drive ++
        [ItemKind.newdrive, ItemKind.options]) := by
  refine ⟨update_list_items_listItems _, ?_, fun p => update_list_items_listItems p⟩
  show ((update_list_items _).1).drives.map _ = _
  rw [update_list_items_names]
  simp

/-! Lemmas about `add_drive` and the generated names. -/

lemma setLast_mountExternal_names (l : List VirtualDrive) :
    (setLast (fun d => { d with mountState := MountState.mountedExternal }) l).map
        (fun d => d.name) = l.map (fun d => d.name) := by
  induction l with
  | nil => rfl
  | cons d rest ih =>
    cases rest with
    | nil => rfl
    | cons e es => exact congrArg (List.cons d.name) ih

lemma add_drive_names (w : World) (s : Nat) (f : DriveFormat) (o : String) :
    ((add_drive w s f o).1).piso.drives.map (fun d => d.name) =
      w.piso.drives.map (fun d => d.name) ++
        ["Drive" ++ toString (w.piso.drives.length + 1)] := by
  show ((update_list_items _).1).drives.map _ = _
  rw [update_list_items_names]
  show (setLast _ (w.piso.drives ++ _)).map _ = _
  rw [setLast_mountExternal_names]
  simp [genName]

lemma add_drive_drives_length (w : World) (s : Nat) (f : DriveFormat) (o : String) :
    ((add_drive w s f o).1).piso.drives.length = w.piso.drives.length + 1 := by
  have h := congrArg List.length (add_drive_names w s f o)
  simpa using h

/-- A sequence of `add_drive` calls (no removals), folded left to right; each
entry carries the requested size, the format, and the loopback script's
output. -/
def addMany (w : World) (ops : List (Nat × DriveFormat × String)) : World :=
  ops.foldl (fun acc op => (add_drive acc op.1 op.2.1 op.2.2).1) w

lemma addMany_names (ops : List (Nat × DriveFormat × String)) :
    ∀ w : World, (addMany w ops).piso.drives.map (fun d => d.name) =
      w.piso.drives.map (fun d => d.name) ++
        (List.range ops.length).map
          (fun i => "Drive" ++ toString (w.piso.drives.length + 1 + i)) := by
  induction ops with
  | nil => intro w; simp [addMany]
  | cons op rest ih =>
    intro w
    show (addMany (add_drive w op.1 op.2.1 op.2.2).1 rest).piso.drives.map _ = _
    rw [ih ((add_drive w op.1 op.2.1 op.2.2).1), add_drive_names,
      add_drive_drives_length, List.append_assoc, List.length_cons,
      List.range_succ_eq_map]
    simp only [List.map_cons, List.map_map, List.singleton_append, Nat.add_zero]
    have hfun : (fun i => "Drive" ++ toString (w.piso.drives.length + 1 + 1 + i)) =
        ((fun i => "Drive" ++ toString (w.piso.drives.length + 1 + i)) ∘ Nat.succ) := by
      funext i
      exact congrArg (fun k => "Drive" ++ toString k) (by omega)
    rw [hfun]

/-! C1: name generation, collisions, and reuse. -/

def collideW1 : World := (add_drive emptyWorld 1000 DriveFormat.LINUX "part1\n").1

def collideW2 : World := (add_drive collideW1 2000 DriveFormat.WINDOWS "part1\n").1

def collideW3 : World :=
  (remove_drive collideW2 (VirtualDrive.mk "Drive1" MountState.unmounted false)).1

def collideW4 : World := (add_drive collideW3 3000 DriveFormat.LINUX "part1\n").1

def reuseW3 : World :=
  (remove_drive collideW2 (VirtualDrive.mk "Drive2" MountState.unmounted false)).1

def reuseW4 : World := (add_drive reuseW3 3000 DriveFormat.LINUX "part1\n").1

/-- C1 counterexample: names are regenerated from the current count alone, so
after add, add, remove("Drive1"), the next add computes "Drive2" again and two
live drives share the name "Drive2" (uniqueness fails); and after add, add,
remove("Drive2"), the next add regenerates "Drive2", so a deleted drive's
name is reused. -/
theorem C1_counterexample :
    collideW2.piso.drives.map (fun d => d.name) = ["Drive1", "Drive2"] ∧
    collideW3.piso.drives.map (fun d => d.name) = ["Drive2"] ∧
    collideW4.piso.drives.map (fun d => d.name) = ["Drive2", "Drive2"] ∧
    ¬ (collideW4.piso.drives.map (fun d => d.name)).Nodup ∧
    reuseW3.piso.drives.map (fun d => d.name) = ["Drive1"] ∧
    Cmd.lvremove "Drive2" ∈ reuseW3.cmds ∧
    reuseW4.piso.drives.map (fun d => d.name) = ["Drive1", "Drive2"] := by
  decide

/-- C1 amended: `add_drive` generates the name `Drive<N>` with `N` the current
drive count plus one and appends the new drive, so a sequence of adds (with
no removals) starting from an empty drive set yields drives named
`Drive1 .. DriveN` in order; after a removal the count shrinks and the same
name can be generated again (see the counterexample), so uniqueness and
non-reuse do not hold in general. -/
theorem C1_amended_sequential_names (w : World) (ops : List (Nat × DriveFormat × String))
    (h : w.piso.drives = []) :
    (addMany w ops).piso.drives.map (fun d => d.name) =
      (List.range ops.length).map (fun i => "Drive" ++ toString (i + 1)) ∧
    ∀ (w' : World) (s : Nat) (f : DriveFormat) (o : String),
      ((add_drive w' s f o).1).piso.drives.map (fun d => d.name) =
        w'.piso.drives.map (fun d => d.name) ++
          ["Drive" ++ toString (w'.piso.drives.length + 1)] := by
  constructor
  · rw [addMany_names ops w, h]
    simp only [List.map_nil, List.nil_append, List.length_nil]
    refine congrArg (fun fn => List.map fn (List.range ops.length)) ?_
    funext i
    exact congrArg (fun k => "Drive" ++ toString k) (by omega)
  · intro w' s f o
    exact add_drive_names w' s f o

/-- C1 amended witness: two adds from the empty state give exactly
`["Drive1", "Drive2"]`. -/
theorem C1_amended_sequential_names_witness :
    (addMany emptyWorld
        [(1000, DriveFormat.LINUX, "part1\n"), (2000, DriveFormat.WINDOWS, "part1\n")]).piso.drives.map
      (fun d => d.name) = ["Drive1", "Drive2"] := by
  have h := (C1_amended_sequential_names emptyWorld
    [(1000, DriveFormat.LINUX, "part1\n"), (2000, DriveFormat.WINDOWS, "part1\n")] rfl).1
  rw [h]
  decide

/-! C3: removal semantics. -/

lemma findIdx?_beqName_none (l : List VirtualDrive) (x : VirtualDrive)
    (h : x.name ∉ l.map (fun d => d.name)) :
    l.findIdx? (fun d => VirtualDrive.beqName d x) = none := by
  rw [List.findIdx?_eq_none_iff]
  intro d hd
  have hne : d.name ≠ x.name := by
    intro he
    exact h (List.mem_map.mpr ⟨d, hd, he⟩)
  simpa [VirtualDrive.beqName] using hne

lemma findIdx?_beqName_eraseIdx (x : VirtualDrive) (l : List VirtualDrive) :
    ∀ k i : Nat, List.findIdx? (fun d => VirtualDrive.beqName d x) l k = some i →
      k ≤ i ∧ (l.eraseIdx (i - k)).map (fun d => d.name) =
        (l.map (fun d => d.name)).erase x.name := by
  induction l with
  | nil => intro k i hfi; simp [List.findIdx?] at hfi
  | cons d rest ih =>
    intro k i hfi
    rw [List.findIdx?_cons] at hfi
    by_cases hd : VirtualDrive.beqName d x = true
    · rw [if_pos hd] at hfi
      have hik : i = k := by
        injection hfi with he
        omega
      subst hik
      have hnm : (d.name == x.name) = true := hd
      refine ⟨le_refl i, ?_⟩
      simp only [Nat.sub_self, List.eraseIdx_zero, List.map_cons, List.erase_cons, hnm,
        if_true, List.tail_cons]
    · rw [if_neg hd] at hfi
      obtain ⟨hki, herase⟩ := ih (k + 1) i hfi
      have hnm : (d.name == x.name) = false := by
        simpa [VirtualDrive.beqName] using hd
      refine ⟨by omega, ?_⟩
      have hsub : i - k = (i - (k + 1)) + 1 := by omega
      rw [hsub]
      simp only [List.eraseIdx_cons_succ, List.map_cons, List.erase_cons, hnm]
      rw [if_neg (by simp [hnm])]
      exact congrArg (List.cons d.name) herase

/-- C3: removing a drive whose name is not in the current set leaves the
drives, the cursor, the item list, the backend command trace and the volume
set unchanged and logs "Warning: drive not found"; removing a present drive
issues exactly one backend `lvremove`, deletes the volume, erases the first
name-matching entry, and triggers a full list rebuild (sequence recomputed,
cursor reset to the first element). -/
theorem C3_remove_drive (w : World) (x : VirtualDrive) :
    (x.name ∉ w.piso.drives.map (fun d => d.name) →
      (remove_drive w x).1.piso.drives = w.piso.drives ∧
      (remove_drive w x).1.piso.selection = w.piso.selection ∧
      (remove_drive w x).1.piso.listItems = w.piso.listItems ∧
      (remove_drive w x).1.cmds = w.cmds ∧
      (remove_drive w x).1.volumes = w.volumes ∧
      "Warning: drive not found" ∈ (remove_drive w x).1.log) ∧
    (x.name ∈ w.piso.drives.map (fun d => d.name) →
      (remove_drive w x).1.cmds = w.cmds ++ [Cmd.lvremove x.name] ∧
      (remove_drive w x).1.volumes = w.volumes.eraseP (fun v => v.lv_name == x.name) ∧
      (remove_drive w x).1.piso.drives.map (fun d => d.name) =
        (w.piso.drives.map (fun d => d.name)).erase x.name ∧
      (remove_drive w x).1.piso.listItems =
        (remove_drive w x).1.piso.drives.map ItemKind.drive ++
          [ItemKind.newdrive, ItemKind.options] ∧
      (remove_drive w x).1.piso.selection = 0) := by
  constructor
  · intro habs
    have hnone := findIdx?_beqName_none w.piso.drives x habs
    refine ⟨?_, ?_, ?_, ?_, ?_, ?_⟩ <;>
      simp [remove_drive, hnone]
  · intro hmem
    have hsome : (List.findIdx? (fun d => VirtualDrive.beqName d x) w.piso.drives).isSome := by
      rw [List.findIdx?_isSome, List.any_eq_true]
      obtain ⟨d, hd, he⟩ := List.mem_map.mp hmem
      exact ⟨d, hd, by simp [VirtualDrive.beqName, he]⟩
    obtain ⟨i, hfi⟩ := Option.isSome_iff_exists.mp hsome
    obtain ⟨-, herase⟩ := findIdx?_beqName_eraseIdx x w.piso.drives 0 i hfi
    refine ⟨?_, ?_, ?_, ?_, ?_⟩
    · simp [remove_drive, hfi]
    · simp [remove_drive, hfi]
    · simp only [remove_drive, hfi]
      rw [update_list_items_names]
      simpa using herase
    · simp only [remove_drive, hfi]
      exact update_list_items_listItems _
    · simp only [remove_drive, hfi]
      exact update_list_items_selection _

/-- C3 witness: at a concrete two-drive state, removing an unknown drive is a
warning-logging no-op and removing a present one deletes it. -/
theorem C3_remove_drive_witness :
    ((remove_drive collideW2 (VirtualDrive.mk "Drive9" MountState.unmounted false)).1.cmds =
      collideW2.cmds ∧
     "Warning: drive not found" ∈
      (remove_drive collideW2 (VirtualDrive.mk "Drive9" MountState.unmounted false)).1.log) ∧
    (remove_drive collideW2 (VirtualDrive.mk "Drive2" MountState.unmounted false)).1.piso.drives.map
      (fun d => d.name) = ["Drive1"] := by
  refine ⟨⟨?_, ?_⟩, ?_⟩
  · exact ((C3_remove_drive collideW2 (VirtualDrive.mk "Drive9" MountState.unmounted false)).1
      (by decide)).2.2.2.1
  · exact ((C3_remove_drive collideW2 (VirtualDrive.mk "Drive9" MountState.unmounted false)).1
      (by decide)).2.2.2.2.2
  · have h := ((C3_remove_drive collideW2 (VirtualDrive.mk "Drive2" MountState.unmounted false)).2
      (by decide)).2.2.1
    rw [h]
    decide

/-! C5 and C6: provisioning pipeline. -/

/-- C6: `add_drive` issues, in order, the volume creation, a `parted` call
whose partition-table filesystem hint is `ntfs` for WINDOWS/MAC/UNIVERSAL and
`ext3` for LINUX, the loopback mount, and a `mkfs` on the first discovered
partition (first line of the script's output) with filesystem `ntfs` for
WINDOWS, `ext3` for LINUX and `exfat` for MAC/UNIVERSAL. -/
theorem C6_format_mapping (w : World) (s : Nat) (f : DriveFormat) (o : String) :
    (add_drive w s f o).1.cmds = w.cmds ++
      [Cmd.lvcreate s (genName w.piso),
       Cmd.parted (genName w.piso) (partedHint f),
       Cmd.vdriveMountInternal (genName w.piso),
       Cmd.mkfs (mkfsType f) (firstLine o)] ∧
    partedHint f = (if f = DriveFormat.LINUX then "ext3" else "ntfs") ∧
    mkfsType f = (match f with
      | DriveFormat.WINDOWS => "ntfs"
      | DriveFormat.LINUX => "ext3"
      | DriveFormat.MAC => "exfat"
      | DriveFormat.UNIVERSAL => "exfat") := by
  refine ⟨?_, ?_, ?_⟩
  · simp [add_drive, List.append_assoc]
  · cases f <;> rfl
  · cases f <;> rfl

lemma mountStateOf_cons_self (nm : String) (st : MountState)
    (rest : List (String × MountState)) :
    mountStateOf ((nm, st) :: rest) nm = st := by
  simp [mountStateOf, List.find?_cons]

/-- C5: `add_drive(S, F)` followed by a backend-derived rebuild
(`rebuild_drives_from_volumes`) yields a drive with the same generated name,
and that drive's mount state is mounted-external. -/
theorem C5_create_roundtrip (w : World) (s : Nat) (f : DriveFormat) (o : String) :
    ∃ d ∈ (rebuild_drives_from_volumes (add_drive w s f o).1).1.piso.drives,
      d.name = genName w.piso ∧ d.mountState = MountState.mountedExternal := by
  have hm : mountStateOf ((add_drive w s f o).1).mounts (genName w.piso) =
      MountState.mountedExternal := by
    show mountStateOf ((genName w.piso, MountState.mountedExternal) :: _) _ = _
    exact mountStateOf_cons_self _ _ _
  have hkey : (genName w.piso, MountState.mountedExternal) ∈
      (rebuild_drives_from_volumes (add_drive w s f o).1).1.piso.drives.map
        (fun d => (d.name, d.mountState)) := by
    show _ ∈ ((update_list_items _).1).drives.map _
    rw [update_list_items_keys]
    simp only [List.map_map]
    apply List.mem_map.mpr
    refine ⟨LvmVolume.mk (genName w.piso) "Vwi-a-tz--" 0 s, ?_, ?_⟩
    · apply List.mem_filter.mpr
      refine ⟨?_, rfl⟩
      show _ ∈ w.volumes ++ [_]
      exact List.mem_append_right _ (List.mem_singleton.mpr rfl)
    · show (genName w.piso, mountStateOf ((add_drive w s f o).1).mounts (genName w.piso)) = _
      rw [hm]
  obtain ⟨d, hdmem, hdeq⟩ := List.mem_map.mp hkey
  exact ⟨d, hdmem, congrArg Prod.fst hdeq, congrArg Prod.snd hdeq⟩

/-! C8: thin-pool usage queries. -/

/-- C8: `percent_used` returns the thin pool's reported data-used percentage
(the first record whose name matches), which lies in [0, 100] whenever the
backend reports valid percentages; it fails fatally (`none`) exactly when no
record carries the thin pool's name; and `size` is the pool's reported byte
size, which is never negative. -/
theorem C8_usage_bounds (pool : String) (lvs : List LvmVolume)
    (hvalid : ∀ v ∈ lvs, 0 ≤ v.data_percent ∧ v.data_percent ≤ 100) :
    ((∃ v ∈ lvs, v.lv_name = pool) →
      ∃ q, percent_used pool lvs = some q ∧ 0 ≤ q ∧ q ≤ 100) ∧
    (∀ q, percent_used pool lvs = some q →
      ∃ v ∈ lvs, v.lv_name = pool ∧ v.data_percent = q) ∧
    ((∀ v ∈ lvs, v.lv_name ≠ pool) → percent_used pool lvs = none) ∧
    (∀ v : LvmVolume, 0 ≤ poolSize v) := by
  refine ⟨?_, ?_, ?_, ?_⟩
  · rintro ⟨v, hv, hname⟩
    have hsome : (lvs.find? (fun u => u.lv_name == pool)).isSome := by
      rw [List.find?_isSome]
      exact ⟨v, hv, by simp [hname]⟩
    obtain ⟨u, hu⟩ := Option.isSome_iff_exists.mp hsome
    have humem := List.mem_of_find?_eq_some hu
    refine ⟨u.data_percent, ?_, (hvalid u humem).1, (hvalid u humem).2⟩
    simp [percent_used, hu]
  · intro q hq
    simp only [percent_used, Option.map_eq_some'] at hq
    obtain ⟨u, hu, hup⟩ := hq
    have humem := List.mem_of_find?_eq_some hu
    have hname : u.lv_name = pool := by
      have := List.find?_some hu
      simpa using this
    exact ⟨u, humem, hname, hup⟩
  · intro habs
    simp only [percent_used, Option.map_eq_none']
    rw [List.find?_eq_none]
    intro v hv
    simpa using habs v hv
  · intro v
    exact Nat.zero_le _

/-- A concrete backend report holding the thin pool. -/
def poolReport : List LvmVolume := [LvmVolume.mk "thinpool" "twi-aotz--" 42 1000]

/-- C8 witness: at a concrete report, the pool is found with its percentage
in range. -/
theorem C8_usage_bounds_witness :
    percent_used "thinpool" poolReport = some 42 ∧ (0 : ℚ) ≤ 42 ∧ (42 : ℚ) ≤ 100 := by
  obtain ⟨q, hq, h0, h1⟩ := (C8_usage_bounds "thinpool" poolReport
    (by
      intro v hv
      simp [poolReport] at hv
      rw [hv]
      constructor <;> norm_num)).1
    ⟨LvmVolume.mk "thinpool" "twi-aotz--" 42 1000, List.mem_singleton.mpr rfl, rfl⟩
  have h42 : percent_used "thinpool" poolReport = some 42 := rfl
  rw [h42] at hq
  injection hq with hq'
  subst hq'
  exact ⟨h42, h0, h1⟩

/-! C4 and C7: render compositor. -/

lemma renderLoop_fullscreen (leftSpace : Nat) (pre post : List (Bitmap × RenderMode))
    (kb : Bitmap) (hpre : ∀ x ∈ pre, x.2 ≠ RenderMode.FULLSCREEN) :
    ∀ acc, renderLoop leftSpace (pre ++ (kb, RenderMode.FULLSCREEN) :: post) acc =
      Sum.inl (kb, RenderMode.FULLSCREEN) := by
  induction pre with
  | nil => intro acc; rfl
  | cons a rest ih =>
    intro acc
    have ha : a.2 ≠ RenderMode.FULLSCREEN := hpre a (List.mem_cons_self a rest)
    rw [List.cons_append]
    simp only [renderLoop]
    rw [if_neg ha]
    exact ih (fun x hx => hpre x (List.mem_cons_of_mem a hx)) _

/-- C4: when item `k` reports FULLSCREEN and no earlier item does, `render`
returns item `k`'s sub-bitmap verbatim as the whole frame; the result does
not depend on the items before or after `k`. -/
theorem C4_render_shortcircuit (W H leftSpace sidebarSpace : Nat)
    (renderText : String → Bitmap) (percentUsed : Int)
    (pre post : List (Bitmap × RenderMode)) (kb : Bitmap)
    (hpre : ∀ x ∈ pre, x.2 ≠ RenderMode.FULLSCREEN) :
    render W H leftSpace sidebarSpace renderText percentUsed
        (pre ++ (kb, RenderMode.FULLSCREEN) :: post) = (kb, RenderMode.FULLSCREEN) := by
  unfold render
  rw [renderLoop_fullscreen leftSpace pre post kb hpre (Bitmap.blank 0 0)]

/-- C4 witness: a concrete list with a NORMAL item before and after the
FULLSCREEN one. -/
theorem C4_render_shortcircuit_witness :
    render 128 64 3 2 (fun _ => Bitmap.blank 4 5) 40
        ([(Bitmap.blank 6 7, RenderMode.NORMAL)] ++
          (Bitmap.blank 8 9, RenderMode.FULLSCREEN) :: [(Bitmap.blank 1 1, RenderMode.NORMAL)]) =
      (Bitmap.blank 8 9, RenderMode.FULLSCREEN) :=
  C4_render_shortcircuit 128 64 3 2 (fun _ => Bitmap.blank 4 5) 40
    [(Bitmap.blank 6 7, RenderMode.NORMAL)] [(Bitmap.blank 1 1, RenderMode.NORMAL)]
    (Bitmap.blank 8 9)
    (by
      intro x hx
      simp only [List.mem_singleton] at hx
      rw [hx]
      intro hcon
      exact RenderMode.noConfusion hcon)

/-- C7 counterexample: an invocation in which an item reports FULLSCREEN
returns that item's bitmap (here 10×10, not the 128×64 display size) with
mode FULLSCREEN, not NORMAL — so the claim does not hold of every
invocation. -/
theorem C7_counterexample :
    ¬ ((render 128 64 3 2 (fun _ => Bitmap.blank 4 5) 40
          [(Bitmap.blank 10 10, RenderMode.FULLSCREEN)]).1.width = 128 ∧
       (render 128 64 3 2 (fun _ => Bitmap.blank 4 5) 40
          [(Bitmap.blank 10 10, RenderMode.FULLSCREEN)]).1.height = 64 ∧
       (render 128 64 3 2 (fun _ => Bitmap.blank 4 5) 40
          [(Bitmap.blank 10 10, RenderMode.FULLSCREEN)]).2 = RenderMode.NORMAL) := by
  intro h
  have hw : (render 128 64 3 2 (fun _ => Bitmap.blank 4 5) 40
      [(Bitmap.blank 10 10, RenderMode.FULLSCREEN)]).1.width = 10 := rfl
  rw [hw] at h
  exact absurd h.1 (by decide)

lemma renderLoop_no_fullscreen (leftSpace : Nat) (items : List (Bitmap × RenderMode))
    (h : ∀ x ∈ items, x.2 ≠ RenderMode.FULLSCREEN) :
    ∀ acc, ∃ b, renderLoop leftSpace items acc = Sum.inr b := by
  induction items with
  | nil => intro acc; exact ⟨acc, rfl⟩
  | cons a rest ih =>
    intro acc
    have ha : a.2 ≠ RenderMode.FULLSCREEN := h a (List.mem_cons_self a rest)
    simp only [renderLoop]
    rw [if_neg ha]
    exact ih (fun x hx => h x (List.mem_cons_of_mem a hx)) _

/-- C7 amended: whenever no item reports FULLSCREEN, the frame returned by
`render` has exactly the physical display's fixed dimensions (content beyond
them being clipped by the non-extending blit) and mode NORMAL; a FULLSCREEN
item instead short-circuits with its own bitmap and mode (see C4 and the
counterexample). -/
theorem C7_amended_frame_dims (W H leftSpace sidebarSpace : Nat)
    (renderText : String → Bitmap) (percentUsed : Int)
    (items : List (Bitmap × RenderMode))
    (h : ∀ x ∈ items, x.2 ≠ RenderMode.FULLSCREEN) :
    (render W H leftSpace sidebarSpace renderText percentUsed items).1.width = W ∧
    (render W H leftSpace sidebarSpace renderText percentUsed items).1.height = H ∧
    (render W H leftSpace sidebarSpace renderText percentUsed items).2 =
      RenderMode.NORMAL := by
  obtain ⟨b, hb⟩ := renderLoop_no_fullscreen leftSpace items h (Bitmap.blank 0 0)
  unfold render
  rw [hb]
  exact ⟨rfl, rfl, rfl⟩

/-- C7 amended witness: a NORMAL-only invocation at the display size 128×64. -/
theorem C7_amended_frame_dims_witness :
    (render 128 64 3 2 (fun _ => Bitmap.blank 4 5) 40
        [(Bitmap.blank 5 5, RenderMode.NORMAL)]).1.width = 128 ∧
    (render 128 64 3 2 (fun _ => Bitmap.blank 4 5) 40
        [(Bitmap.blank 5 5, RenderMode.NORMAL)]).1.height = 64 ∧
    (render 128 64 3 2 (fun _ => Bitmap.blank 4 5) 40
        [(Bitmap.blank 5 5, RenderMode.NORMAL)]).2 = RenderMode.NORMAL :=
  C7_amended_frame_dims 128 64 3 2 (fun _ => Bitmap.blank 4 5) 40
    [(Bitmap.blank 5 5, RenderMode.NORMAL)]
    (by
      intro x hx
      simp only [List.mem_singleton] at hx
      rw [hx]
      intro hcon
      exact RenderMode.noConfusion hcon)

end Piso
